import Mathlib

/- Verification of the core numerical routines of the swfwi seismic
full-waveform-inversion code (src/src/ess-fwi2d/main-essfwi2d.cpp and
src/src/tool/main-born.cpp), shallowly embedded over rational numbers.
C float arrays become List of rationals, in-place outputs become returned
values, and a call of exit becomes an Except error carrying the exit status. -/

namespace Swfwi

/-- Conjugate-direction update of main-essfwi2d.cpp (prevCurrCorrDirection).
On iteration 0 both outputs are the current gradient; later, beta is the
clamped Fletcher-Reeves-style ratio and each direction entry becomes
cur_gradient[i] + beta * update_direction[i]. The function returns the pair
(new pre_gradient, new update_direction); the source overwrites pre_gradient
only after computing the direction, so both outputs read the input arrays. -/
def prevCurrCorrDirection (pre_gradient cur_gradient update_direction : List ℚ)
    (iter : ℕ) : List ℚ × List ℚ :=
  if iter = 0 then
    (cur_gradient, cur_gradient)
  else
    let a := (List.zipWith (fun x y => x * y) cur_gradient cur_gradient).sum
    let b := (List.zipWith (fun x y => x * y) cur_gradient pre_gradient).sum
    let c := (List.zipWith (fun x y => x * y) pre_gradient pre_gradient).sum
    let beta0 := (a - b) / c
    let beta := if beta0 < 0 then 0 else beta0
    (cur_gradient,
     List.zipWith (fun g d => g + beta * d) cur_gradient update_direction)

/-- Per-cell clamp of update_vel (main-essfwi2d.cpp): first the upper bound is
applied, then the lower bound, exactly in the order of the two ifs of the
source loop body. -/
def clampStep (vmin vmax v : ℚ) : ℚ :=
  let v1 := if v > vmax then vmax else v
  if v1 < vmin then vmin else v1

/-- update_vel of main-essfwi2d.cpp. When vmax <= vmin the source logs an
ERROR diagnostic and calls exit(0); the error value records that exit status.
Otherwise new_vel[i] = vel[i] + steplen * grad[i], clamped to [vmin, vmax]. -/
def update_vel (vel grad : List ℚ) (steplen vmin vmax : ℚ) : Except ℕ (List ℚ) :=
  if vmax ≤ vmin then Except.error 0
  else Except.ok (List.zipWith (fun v g => clampStep vmin vmax (v + steplen * g)) vel grad)

/-- The per-iteration velocity update of main (main-essfwi2d.cpp, end of the
outer loop): update_vel into exvel followed by fmMethod.refillBoundary.
refillBoundary is a method of Damp4t10d, which is not under src, so it is kept
abstract as the function argument refill. -/
def driverUpdateVel (refill : List ℚ → List ℚ) (vel dir : List ℚ)
    (steplen vmin vmax : ℚ) : Except ℕ (List ℚ) :=
  match update_vel vel dir steplen vmin vmax with
  | Except.ok newv => Except.ok (refill newv)
  | Except.error e => Except.error e

/-- Adjoint virtual-source time filter of main-essfwi2d.cpp
(second_order_virtual_source_forth_accuracy): a fourth-order-accurate second
difference in time read from an unmodified copy of the input, with the first
two samples (i <= 1) and the last two samples (i = num-1, i = num-2) zeroed.
The source declares a dt parameter but never reads it. -/
def second_order_virtual_source_forth_accuracy (vsrc : List ℚ) (num : ℕ)
    (dt : ℚ) : List ℚ :=
  (List.range num).map fun i =>
    if i ≤ 1 then 0
    else if i = num - 1 ∨ i = num - 2 then 0
    else
      -1/12 * vsrc.getD (i - 2) 0 + 4/3 * vsrc.getD (i - 1) 0
        - 5/2 * vsrc.getD i 0 + 4/3 * vsrc.getD (i + 1) 0
        - 1/12 * vsrc.getD (i + 2) 0

/-- transVsrc of main-essfwi2d.cpp: transpose the residual gather from
(fast: receiver) to per-receiver time traces, filter every trace, transpose
back. The input is given as the list of nt rows of length ng. The helper
matrix_transpose is a thin binary-matrix utility that is not under src
(spec section 1 lists it as an out-of-scope external collaborator);
Modelled from the spec: it is the standard matrix transpose. The diagnostic
file write of the source (vsrc.rsf) has no effect on the returned data. -/
def transVsrc (vsrc : List (List ℚ)) (nt : ℕ) (dt : ℚ) : List (List ℚ) :=
  (vsrc.transpose.map fun trace =>
    second_order_virtual_source_forth_accuracy trace nt dt).transpose

namespace Params

/-- Geometry validation of main-born.cpp (Params::check): sources and then
geophones must lie inside the computing zone; on failure the source prints an
sf_warning diagnostic and calls exit(1), recorded here as an error carrying
that exit status. -/
def check (sxbeg szbeg jsx jsz ns nx nz gxbeg gzbeg jgx jgz ng : ℤ) :
    Except ℤ Unit :=
  if ¬ (sxbeg ≥ 0 ∧ szbeg ≥ 0 ∧ sxbeg + (ns - 1) * jsx < nx ∧
        szbeg + (ns - 1) * jsz < nz) then
    Except.error 1
  else if ¬ (gxbeg ≥ 0 ∧ gzbeg ≥ 0 ∧ gxbeg + (ng - 1) * jgx < nx ∧
             gzbeg + (ng - 1) * jgz < nz) then
    Except.error 1
  else Except.ok ()

end Params

/-- Accumulation step of cross_correlation (main-essfwi2d.cpp):
image[i] -= src_wave[i] * vsrc_wave[i] * scale. -/
def cross_correlation (src_wave vsrc_wave image : List ℚ) (scale : ℚ) :
    List ℚ :=
  List.zipWith (fun im sv => im - sv * scale) image
    (List.zipWith (fun s v => s * v) src_wave vsrc_wave)

/-- Gradient-accumulation loop of the backward pass hello
(main-essfwi2d.cpp): the time loop runs it = nt-1 down to 0 and ends each
body with the ramped cross-correlation, or breaks out of the loop entirely
once dt * it <= 0.3. The wavefields sp0 and gp0 at step it come from
stepBackward, stepForward and checkpoint reads of Damp4t10d (a class not
under src); they are abstracted as the oracles sw and vw giving the two
field arrays that reach the cross-correlation at step it.
hello dt sw vw nt g0 is the gradient image after the loop. -/
def hello (dt : ℚ) (sw vw : ℕ → List ℚ) : ℕ → List ℚ → List ℚ
  | 0, g0 => g0
  | n + 1, g0 =>
    if dt * (n : ℚ) > 2/5 then
      hello dt sw vw n (cross_correlation (sw n) (vw n) g0 1)
    else if dt * (n : ℚ) > 3/10 then
      hello dt sw vw n
        (cross_correlation (sw n) (vw n) g0 ((dt * (n : ℚ) - 3/10) / (1/10)))
    else g0

/-- Bound on the halving retries of selectAlpha (main-essfwi2d.cpp). -/
def max_iter_select_alpha3 : ℕ := 5

/-- The five in-out scalars of selectAlpha (main-essfwi2d.cpp). -/
structure AlphaSel where
  alpha2 : ℚ
  obj_val2 : ℚ
  alpha3 : ℚ
  obj_val3 : ℚ
  toParabolicFit : Bool
deriving DecidableEq, Repr

/-- Local loop state of selectAlpha: the current candidates and the list of
(alpha, objective) pairs inserted into the tunedAlpha set so far, in
insertion order. -/
structure TuneState where
  alpha2 : ℚ
  obj_val2 : ℚ
  alpha3 : ℚ
  obj_val3 : ℚ
  tunedAlpha : List (ℚ × ℚ)
deriving DecidableEq, Repr

/-- The halving loop of selectAlpha: while iter < max_iter_select_alpha3 and
obj_val2 > obj_val1, shift (alpha2, obj_val2) into (alpha3, obj_val3), halve
alpha2, re-evaluate the misfit there (the oracle f stands for
calculate_obj_val at the given step length) and record the candidate.
The fuel argument is the remaining iteration budget. -/
def halveAlpha2 (f : ℚ → ℚ) (obj_val1 : ℚ) : ℕ → TuneState → TuneState
  | 0, s => s
  | fuel + 1, s =>
    if s.obj_val2 > obj_val1 then
      let a2 := s.alpha2 / 2
      let o2 := f a2
      halveAlpha2 f obj_val1 fuel
        { alpha2 := a2, obj_val2 := o2, alpha3 := s.alpha2,
          obj_val3 := s.obj_val2, tunedAlpha := s.tunedAlpha ++ [(a2, o2)] }
    else s

/-- The begin() element of the tunedAlpha set of selectAlpha. The set is
ordered by the comparator parabolicLessComp, which compares the objective
values (its 1e-10 slack makes near-ties unspecified, and this model keeps
the earliest minimum), so begin() is a candidate of smallest objective. -/
def tunedBest : List (ℚ × ℚ) → ℚ × ℚ
  | [] => (0, 0)
  | p :: ps => ps.foldl (fun best q => if q.2 < best.2 then q else best) p

/-- The doubling loop of selectAlpha: while obj_val3 still beats the linear
extrapolation target and the baseline, and alpha3 < maxAlpha3, shift
(alpha3, obj_val3) into (alpha2, obj_val2), double alpha3 capped at
maxAlpha3, and re-evaluate. The source while loop has no iteration bound
(it stops because alpha3 is capped, except in the degenerate case
alpha3 <= 0), so the model carries explicit fuel. -/
def doubleAlpha3 (f : ℚ → ℚ) (obj_val1 linearFitAlph3 maxAlpha3 : ℚ) :
    ℕ → TuneState → TuneState
  | 0, s => s
  | fuel + 1, s =>
    if s.obj_val3 < linearFitAlph3 ∧ s.obj_val3 < obj_val1 ∧
        s.alpha3 < maxAlpha3 then
      let a3 := min (s.alpha3 * 2) maxAlpha3
      let o3 := f a3
      doubleAlpha3 f obj_val1 linearFitAlph3 maxAlpha3 fuel
        { alpha2 := s.alpha3, obj_val2 := s.obj_val3, alpha3 := a3,
          obj_val3 := o3, tunedAlpha := s.tunedAlpha ++ [(a3, o3)] }
    else s

/-- selectAlpha of main-essfwi2d.cpp. The oracle f stands for
calculate_obj_val: the misfit of the model updated with the given step
length (a deterministic function of the step length once the velocity,
gradient, encoding and data are fixed). In both fallback branches the source
evaluates the returned objective at the current local variable (alpha3 after
the halving loop, alpha2 after the doubling loop), exactly as modelled. -/
def selectAlpha (f : ℚ → ℚ) (obj_val1 maxAlpha3 : ℚ)
    (alpha2 alpha3 : ℚ) (fuel : ℕ) : AlphaSel :=
  let o2 := f alpha2
  let o3 := f alpha3
  let s0 : TuneState :=
    { alpha2 := alpha2, obj_val2 := o2, alpha3 := alpha3, obj_val3 := o3,
      tunedAlpha := [(alpha2, o2)] }
  let s1 := halveAlpha2 f obj_val1 max_iter_select_alpha3 s0
  if s1.obj_val2 > obj_val1 then
    let best := tunedBest s1.tunedAlpha
    { alpha2 := best.1, obj_val2 := best.2,
      alpha3 := min (best.1 * 2) maxAlpha3,
      obj_val3 := f s1.alpha3,
      toParabolicFit := false }
  else
    let linearFitAlph3 :=
      (s1.obj_val2 - obj_val1) / (s1.alpha2 - 0) * (s1.alpha3 - 0) + obj_val1
    let s2 := doubleAlpha3 f obj_val1 linearFitAlph3 maxAlpha3 fuel
      { s1 with tunedAlpha := [(s1.alpha3, s1.obj_val3)] }
    if s2.alpha3 > maxAlpha3 + 1/10 then
      let best := tunedBest s2.tunedAlpha
      { alpha2 := best.1 / 2, obj_val2 := f s2.alpha2,
        alpha3 := best.1, obj_val3 := best.2,
        toParabolicFit := false }
    else
      { alpha2 := s2.alpha2, obj_val2 := s2.obj_val2, alpha3 := s2.alpha3,
        obj_val3 := s2.obj_val3, toParabolicFit := true }

/-- Closed form of the tunedAlpha set built by the halving loop of
selectAlpha when it starts from alpha2 and halves k times: the candidates
alpha2 / 2^j for j = 0..k, each paired with its misfit. -/
def halvedCandidates (f : ℚ → ℚ) (alpha2 : ℚ) (k : ℕ) : List (ℚ × ℚ) :=
  (List.range (k + 1)).map fun j => (alpha2 / 2^j, f (alpha2 / 2^j))

/-- The candidates appended to tunedAlpha by k iterations of the halving
loop: alpha2 / 2^(j+1) for j = 0..k-1, each paired with its misfit. -/
def shiftedCandidates (f : ℚ → ℚ) (alpha2 : ℚ) (k : ℕ) : List (ℚ × ℚ) :=
  (List.range k).map fun j => (alpha2 / 2^(j + 1), f (alpha2 / 2^(j + 1)))

/-- Denominator of the Lagrange coefficients of calcParabolaVertex. -/
def parabolaDenom (x1 x2 x3 : ℚ) : ℚ := (x1 - x2) * (x1 - x3) * (x2 - x3)

/-- Quadratic coefficient A of calcParabolaVertex (main-essfwi2d.cpp). -/
def parabolaA (x1 y1 x2 y2 x3 y3 : ℚ) : ℚ :=
  (x3 * (y2 - y1) + x2 * (y1 - y3) + x1 * (y3 - y2)) / parabolaDenom x1 x2 x3

/-- Linear coefficient B of calcParabolaVertex (main-essfwi2d.cpp). -/
def parabolaB (x1 y1 x2 y2 x3 y3 : ℚ) : ℚ :=
  (x3 * x3 * (y1 - y2) + x2 * x2 * (y3 - y1) + x1 * x1 * (y2 - y3)) /
    parabolaDenom x1 x2 x3

/-- Constant coefficient C of calcParabolaVertex (main-essfwi2d.cpp). -/
def parabolaC (x1 y1 x2 y2 x3 y3 : ℚ) : ℚ :=
  (x2 * x3 * (x2 - x3) * y1 + x3 * x1 * (x3 - x1) * y2 +
    x1 * x2 * (x1 - x2) * y3) / parabolaDenom x1 x2 x3

/-- calcParabolaVertex of main-essfwi2d.cpp: vertex (xv, yv) of the parabola
through the three points. -/
def calcParabolaVertex (x1 y1 x2 y2 x3 y3 : ℚ) : ℚ × ℚ :=
  let A := parabolaA x1 y1 x2 y2 x3 y3
  let B := parabolaB x1 y1 x2 y2 x3 y3
  let C := parabolaC x1 y1 x2 y2 x3 y3
  (-B / (2 * A), C - B * B / (4 * A))

/-- Ill-conditioning test of calcParabolaVertexEnhanced: the two secant
slopes are nearly equal. The second disjunct of the source condition
compares xv with -NaN using ==, which is always false for IEEE floats, so it
is dropped from the model. -/
def illConditioned (x1 y1 x2 y2 x3 y3 : ℚ) : Prop :=
  |(y3 - y2) / (x3 - x2) - (y2 - y1) / (x2 - x1)| <
    1/1000 * max |(y3 - y2) / (x3 - x2)| |(y2 - y1) / (x2 - x1)|

instance (x1 y1 x2 y2 x3 y3 : ℚ) :
    Decidable (illConditioned x1 y1 x2 y2 x3 y3) := by
  unfold illConditioned; infer_instance

/-- calcParabolaVertexEnhanced of main-essfwi2d.cpp. The -NaN written into yv
in the ill-conditioned branch (a pure diagnostic sentinel) is modelled as
Option.none. -/
def calcParabolaVertexEnhanced (x1 y1 x2 y2 x3 y3 max_alpha3 : ℚ) :
    ℚ × Option ℚ :=
  let v := calcParabolaVertex x1 y1 x2 y2 x3 y3
  if illConditioned x1 y1 x2 y2 x3 y3 then (min (2 * x3) max_alpha3, none)
  else (v.1, some v.2)

/-- Final step of calStepLen (main-essfwi2d.cpp) after selectAlpha: when
toParabolic holds, take the enhanced parabola vertex through
(0, obj_val1), (alpha2, obj_val2), (alpha3, obj_val3) and clamp alpha4 down
to max_alpha3; otherwise alpha4 = alpha3 and obj_val4 = obj_val3. -/
def calStepLenFinal (obj_val1 alpha2 obj_val2 alpha3 obj_val3 max_alpha3 : ℚ)
    (toParabolic : Bool) : ℚ × Option ℚ :=
  if toParabolic then
    let v := calcParabolaVertexEnhanced 0 obj_val1 alpha2 obj_val2 alpha3
      obj_val3 max_alpha3
    (if v.1 > max_alpha3 then max_alpha3 else v.1, v.2)
  else (alpha3, some obj_val3)

/-- The process-wide warm-start state of preserved-alpha.h: one initialized
flag and one stored step length per velocity-parameter index. -/
structure PreservedAlpha where
  isInit : ℕ → Bool
  alpha : ℕ → ℚ

/-- initAlpha2_3 of main-essfwi2d.cpp: on the first call for ivel the store
receives max_alpha3; the returned alpha3 is the stored value (with values
below minAlpha = 1.0E-7 replaced by resetAlpha = 1.0E-4, without writing the
replacement back), and alpha2 is half of it. Returns the updated store and
the pair (initAlpha2, initAlpha3). -/
def initAlpha2_3 (st : PreservedAlpha) (ivel : ℕ) (max_alpha3 : ℚ) :
    PreservedAlpha × ℚ × ℚ :=
  let minAlpha : ℚ := 1 / 10^7
  let resetAlpha : ℚ := 1 / 10^4
  let st1 :=
    if st.isInit ivel then st
    else { isInit := fun i => if i = ivel then true else st.isInit i,
           alpha := fun i => if i = ivel then max_alpha3 else st.alpha i }
  let a3 := st1.alpha ivel
  let initAlpha3 := if a3 < minAlpha then resetAlpha else a3
  let initAlpha2 := initAlpha3 * (1/2)
  (st1, initAlpha2, initAlpha3)

/-- calStepLen of main-essfwi2d.cpp: warm-started initialization of
(alpha2, alpha3), selectAlpha, then the parabolic-fit finalization, and the
write of the returned alpha4 back into the warm-start store. calMaxAlpha2_3
computes max_alpha3 from the velocity grid with a floating square root and
is abstracted as the parameter max_alpha3 (its other output max_alpha2 is
only logged by the source); calculate_obj_val is abstracted as the oracle f
as in selectAlpha. Returns the updated store and alpha4. -/
def calStepLen (st : PreservedAlpha) (f : ℚ → ℚ) (ivel : ℕ)
    (max_alpha3 obj_val1 : ℚ) (fuel : ℕ) : PreservedAlpha × ℚ :=
  let r1 := initAlpha2_3 st ivel max_alpha3
  let sel := selectAlpha f obj_val1 max_alpha3 r1.2.1 r1.2.2 fuel
  let fin := calStepLenFinal obj_val1 sel.alpha2 sel.obj_val2 sel.alpha3
    sel.obj_val3 max_alpha3 sel.toParabolicFit
  ({ r1.1 with alpha := fun i => if i = ivel then fin.1 else r1.1.alpha i },
   fin.1)

/-! Helper lemmas about list indexing and elementwise updates. -/

lemma getD_zipWith (f : ℚ → ℚ → ℚ) :
    ∀ (as bs : List ℚ) (i : ℕ), i < as.length → i < bs.length →
      (List.zipWith f as bs).getD i 0 = f (as.getD i 0) (bs.getD i 0)
  | [], _, i, h, _ => absurd h (by simp)
  | _ :: _, [], i, _, h => absurd h (by simp)
  | a :: as, b :: bs, 0, _, _ => rfl
  | a :: as, b :: bs, i + 1, h1, h2 => by
      simpa using getD_zipWith f as bs i (by simpa using h1) (by simpa using h2)

lemma sum_zipWith_mul :
    ∀ (as bs : List ℚ), as.length = bs.length →
      (List.zipWith (fun x y => x * y) as bs).sum =
        ∑ i ∈ Finset.range as.length, as.getD i 0 * bs.getD i 0
  | [], [], _ => by simp
  | [], _ :: _, h => by simp at h
  | _ :: _, [], h => by simp at h
  | a :: as, b :: bs, h => by
      have ih := sum_zipWith_mul as bs (by simpa using h)
      simp only [List.zipWith_cons_cons, List.sum_cons, ih, List.length_cons]
      rw [Finset.sum_range_succ']
      simp [add_comm]

lemma if_lt_zero_eq_max (x : ℚ) : (if x < 0 then 0 else x) = max 0 x := by
  rcases le_or_lt 0 x with h | h
  · rw [if_neg (not_lt.mpr h), max_eq_right h]
  · rw [if_pos h, max_eq_left h.le]

lemma clampStep_eq_min_max (vmin vmax v : ℚ) (h : vmin ≤ vmax) :
    clampStep vmin vmax v = min vmax (max vmin v) := by
  simp only [clampStep]
  split_ifs <;> simp_all [min_def, max_def] <;> split_ifs <;> linarith

lemma clampStep_bounds (vmin vmax v : ℚ) (h : vmin ≤ vmax) :
    vmin ≤ clampStep vmin vmax v ∧ clampStep vmin vmax v ≤ vmax := by
  simp only [clampStep]
  split_ifs <;> constructor <;> linarith

lemma clampStep_idem (vmin vmax v : ℚ) (h : vmin ≤ vmax) :
    clampStep vmin vmax (clampStep vmin vmax v) = clampStep vmin vmax v := by
  simp only [clampStep]
  split_ifs <;> linarith

lemma mem_zipWith (P : ℚ → Prop) (f : ℚ → ℚ → ℚ) (hf : ∀ a b, P (f a b)) :
    ∀ (as bs : List ℚ), ∀ x ∈ List.zipWith f as bs, P x
  | [], _, x, hx => by simp at hx
  | _ :: _, [], x, hx => by simp at hx
  | a :: as, b :: bs, x, hx => by
      rcases List.mem_cons.1 hx with h | h
      · exact h ▸ hf a b
      · exact mem_zipWith P f hf as bs x h

lemma zipWith_clamp_idem (c : ℚ → ℚ) (hc : ∀ v, c (c v) = c v) :
    ∀ (vel grad : List ℚ),
      List.zipWith (fun v _ => c v) (List.zipWith (fun v _ => c v) vel grad)
          grad = List.zipWith (fun v _ => c v) vel grad
  | [], _ => rfl
  | _ :: _, [] => rfl
  | v :: vel, g :: grad => by
      simp only [List.zipWith_cons_cons, hc]
      rw [zipWith_clamp_idem c hc vel grad]

/-- C1: the conjugate-direction update of prevCurrCorrDirection: on
iteration 0 both update_direction and pre_gradient become the current
gradient; on every later iteration beta is
max(0, (sum cur[i]^2 - sum cur[i]*pre[i]) / sum pre[i]^2), each direction
entry becomes cur_gradient[i] + beta * update_direction[i], and pre_gradient
becomes the current gradient. The hypothesis hc excludes a zero denominator,
where the float code would produce NaN. -/
theorem c1_prevCurrCorrDirection
    (pre_gradient cur_gradient update_direction : List ℚ) (iter i : ℕ)
    (hp : pre_gradient.length = cur_gradient.length)
    (hu : update_direction.length = cur_gradient.length)
    (hi : i < cur_gradient.length)
    (hc : ∑ j ∈ Finset.range cur_gradient.length,
            pre_gradient.getD j 0 * pre_gradient.getD j 0 ≠ 0) :
    (iter = 0 →
      prevCurrCorrDirection pre_gradient cur_gradient update_direction iter =
        (cur_gradient, cur_gradient)) ∧
    (iter ≠ 0 →
      (prevCurrCorrDirection pre_gradient cur_gradient update_direction
          iter).1 = cur_gradient ∧
      (prevCurrCorrDirection pre_gradient cur_gradient update_direction
          iter).2.getD i 0 =
        cur_gradient.getD i 0 +
          max 0
            (((∑ j ∈ Finset.range cur_gradient.length,
                cur_gradient.getD j 0 * cur_gradient.getD j 0) -
              ∑ j ∈ Finset.range cur_gradient.length,
                cur_gradient.getD j 0 * pre_gradient.getD j 0) /
             ∑ j ∈ Finset.range cur_gradient.length,
                pre_gradient.getD j 0 * pre_gradient.getD j 0) *
            update_direction.getD i 0) := by
  constructor
  · intro h
    simp [prevCurrCorrDirection, h]
  · intro h
    have ha := sum_zipWith_mul cur_gradient cur_gradient rfl
    have hb := sum_zipWith_mul cur_gradient pre_gradient hp.symm
    have hcc := sum_zipWith_mul pre_gradient pre_gradient rfl
    rw [hp] at hcc
    constructor
    · simp [prevCurrCorrDirection, h]
    · simp only [prevCurrCorrDirection, if_neg h]
      rw [getD_zipWith _ cur_gradient update_direction i hi (hu ▸ hi)]
      rw [ha, hb, hcc, if_lt_zero_eq_max]

/-- Witness for c1_prevCurrCorrDirection at pre = [1], cur = [2],
upd = [3], iter = 1, i = 0. -/
theorem c1_prevCurrCorrDirection_witness :
    ((∑ j ∈ Finset.range ([(2:ℚ)].length),
        [(1:ℚ)].getD j 0 * [(1:ℚ)].getD j 0) ≠ 0) ∧
    ((1 : ℕ) ≠ 0 →
      (prevCurrCorrDirection [1] [2] [3] 1).1 = [2] ∧
      (prevCurrCorrDirection [(1:ℚ)] [2] [3] 1).2.getD 0 0 =
        [(2:ℚ)].getD 0 0 +
          max 0
            (((∑ j ∈ Finset.range ([(2:ℚ)].length),
                [(2:ℚ)].getD j 0 * [(2:ℚ)].getD j 0) -
              ∑ j ∈ Finset.range ([(2:ℚ)].length),
                [(2:ℚ)].getD j 0 * [(1:ℚ)].getD j 0) /
             ∑ j ∈ Finset.range ([(2:ℚ)].length),
                [(1:ℚ)].getD j 0 * [(1:ℚ)].getD j 0) *
            [(3:ℚ)].getD 0 0) := by
  have hc : (∑ j ∈ Finset.range ([(2:ℚ)].length),
      [(1:ℚ)].getD j 0 * [(1:ℚ)].getD j 0) ≠ 0 := by
    simp
  exact ⟨hc,
    (c1_prevCurrCorrDirection [1] [2] [3] 1 0 rfl rfl (by decide) hc).2⟩

/-- C6 counterexample: update_vel with steplen = 0 does not leave every
velocity model unchanged: with vel = [6000], bounds [1500, 5500], the
entry is clamped to 5500. -/
theorem c6_steplen_zero_counterexample :
    update_vel [6000] [0] 0 1500 5500 = Except.ok [5500] ∧
    update_vel [6000] [0] 0 1500 5500 ≠ Except.ok [6000] := by
  constructor
  · rw [update_vel, if_neg (by norm_num)]
    norm_num [clampStep]
  · rw [update_vel, if_neg (by norm_num)]
    norm_num [clampStep]

/-- C6 amended: update_vel with steplen = 0 clamps each entry of the
velocity model to [vmin, vmax]; entries already within the bounds are left
unchanged, and update_vel with steplen = 0 applied to its own output
returns the output unchanged (the clamp is idempotent). -/
theorem c6_update_vel_clamp_idem (vel grad : List ℚ) (vmin vmax : ℚ)
    (h : vmin < vmax) :
    ∃ out, update_vel vel grad 0 vmin vmax = Except.ok out ∧
      (∀ i, i < out.length →
        out.getD i 0 = min vmax (max vmin (vel.getD i 0))) ∧
      (∀ i, i < out.length → vmin ≤ vel.getD i 0 → vel.getD i 0 ≤ vmax →
        out.getD i 0 = vel.getD i 0) ∧
      update_vel out grad 0 vmin vmax = Except.ok out := by
  have hfun : (fun v g => clampStep vmin vmax (v + 0 * g)) =
      fun v (_ : ℚ) => clampStep vmin vmax v := by
    funext v g; simp
  have hne : ¬ vmax ≤ vmin := not_le.mpr h
  have hout : update_vel vel grad 0 vmin vmax =
      Except.ok (List.zipWith (fun v _ => clampStep vmin vmax v) vel grad) := by
    rw [update_vel, if_neg hne, hfun]
  refine ⟨_, hout, ?_, ?_, ?_⟩
  · intro i hiout
    have hil : i < vel.length ∧ i < grad.length := by
      rw [List.length_zipWith] at hiout
      exact ⟨lt_of_lt_of_le hiout (min_le_left _ _),
             lt_of_lt_of_le hiout (min_le_right _ _)⟩
    rw [getD_zipWith _ vel grad i hil.1 hil.2,
        clampStep_eq_min_max _ _ _ h.le]
  · intro i hiout hlo hhi
    have hil : i < vel.length ∧ i < grad.length := by
      rw [List.length_zipWith] at hiout
      exact ⟨lt_of_lt_of_le hiout (min_le_left _ _),
             lt_of_lt_of_le hiout (min_le_right _ _)⟩
    rw [getD_zipWith _ vel grad i hil.1 hil.2,
        clampStep_eq_min_max _ _ _ h.le,
        max_eq_right hlo, min_eq_right hhi]
  · rw [update_vel, if_neg hne, hfun,
        zipWith_clamp_idem _ (fun v => clampStep_idem vmin vmax v h.le)]

/-- Witness for c6_update_vel_clamp_idem at vel = [6000, 2000],
grad = [1, 1], bounds [1500, 5500]. -/
theorem c6_update_vel_clamp_idem_witness :
    (1500 : ℚ) < 5500 ∧
    ∃ out, update_vel [6000, 2000] [1, 1] 0 1500 5500 = Except.ok out ∧
      (∀ i, i < out.length →
        out.getD i 0 = min 5500 (max 1500 ([(6000:ℚ), 2000].getD i 0))) ∧
      (∀ i, i < out.length → 1500 ≤ [(6000:ℚ), 2000].getD i 0 →
        [(6000:ℚ), 2000].getD i 0 ≤ 5500 →
        out.getD i 0 = [(6000:ℚ), 2000].getD i 0) ∧
      update_vel out [1, 1] 0 1500 5500 = Except.ok out :=
  ⟨by norm_num,
   c6_update_vel_clamp_idem [6000, 2000] [1, 1] 1500 5500 (by norm_num)⟩

/-- C7: whenever vmin < vmax, update_vel succeeds and every entry of the
returned velocity model lies in the closed interval [vmin, vmax]; the
inversion driver then applies exactly this clamped update followed by the
boundary refill (driverUpdateVel, the per-iteration velocity update of
main). -/
theorem c7_update_vel_invariant (vel grad : List ℚ)
    (steplen vmin vmax : ℚ) (refill : List ℚ → List ℚ) (h : vmin < vmax) :
    ∃ out, update_vel vel grad steplen vmin vmax = Except.ok out ∧
      (∀ x ∈ out, vmin ≤ x ∧ x ≤ vmax) ∧
      driverUpdateVel refill vel grad steplen vmin vmax =
        Except.ok (refill out) := by
  have hne : ¬ vmax ≤ vmin := not_le.mpr h
  have hout : update_vel vel grad steplen vmin vmax =
      Except.ok (List.zipWith
        (fun v g => clampStep vmin vmax (v + steplen * g)) vel grad) := by
    rw [update_vel, if_neg hne]
  refine ⟨_, hout, ?_, ?_⟩
  · exact mem_zipWith _ _
      (fun a b => clampStep_bounds vmin vmax (a + steplen * b) h.le) vel grad
  · rw [driverUpdateVel, hout]

/-- Witness for c7_update_vel_invariant at vel = [6000, 1000, 3000],
grad = [10, 10, 10], steplen = 1, bounds [1500, 5500]. -/
theorem c7_update_vel_invariant_witness :
    (1500 : ℚ) < 5500 ∧
    ∃ out, update_vel [6000, 1000, 3000] [10, 10, 10] 1 1500 5500 =
        Except.ok out ∧
      (∀ x ∈ out, (1500 : ℚ) ≤ x ∧ x ≤ 5500) ∧
      driverUpdateVel List.reverse [6000, 1000, 3000] [10, 10, 10] 1 1500
          5500 = Except.ok out.reverse :=
  ⟨by norm_num,
   c7_update_vel_invariant [6000, 1000, 3000] [10, 10, 10] 1 1500 5500
     List.reverse (by norm_num)⟩

/-- C8: update_vel called with vmax <= vmin reports a diagnostic and
terminates before modifying the velocity model, but the source calls
exit(0): the recorded exit status is 0, not the non-zero status the claim
requires. -/
theorem c8_update_vel_exit_zero :
    update_vel [2000] [1] 1 5500 1500 = Except.error 0 ∧ ¬ (0 : ℕ) ≠ 0 := by
  constructor
  · rw [update_vel, if_pos (by norm_num)]
  · simp

lemma cross_correlation_length (s v im : List ℚ) (sc : ℚ) :
    (cross_correlation s v im sc).length =
      min im.length (min s.length v.length) := by
  simp [cross_correlation]

lemma cross_correlation_getD (s v im : List ℚ) (sc : ℚ) (i : ℕ)
    (hs : i < s.length) (hv : i < v.length) (him : i < im.length) :
    (cross_correlation s v im sc).getD i 0 =
      im.getD i 0 - s.getD i 0 * v.getD i 0 * sc := by
  unfold cross_correlation
  rw [getD_zipWith _ im _ i him
        (by rw [List.length_zipWith]; exact lt_min hs hv),
      getD_zipWith _ s v i hs hv]

/-- C4: in the backward gradient pass hello, the cross-correlation
contribution of time step it carries weight 1 when dt * it > 0.4, weight
(dt * it - 0.3) / 0.1 when 0.3 < dt * it <= 0.4, and nothing is accumulated
for any time step with dt * it <= 0.3 (the loop breaks there, and with
dt >= 0 every remaining step is also below the cutoff). -/
theorem c4_hello_time_ramp (dt : ℚ) (sw vw : ℕ → List ℚ) (nt : ℕ)
    (g0 : List ℚ) (i : ℕ) (hdt : 0 ≤ dt)
    (hl : ∀ it, (sw it).length = g0.length ∧ (vw it).length = g0.length)
    (hi : i < g0.length) :
    (hello dt sw vw nt g0).getD i 0 =
      g0.getD i 0 -
        ∑ it ∈ Finset.range nt,
          (if dt * (it : ℚ) > 2/5 then 1
           else if dt * (it : ℚ) > 3/10 then (dt * (it : ℚ) - 3/10) / (1/10)
           else 0) * ((sw it).getD i 0 * (vw it).getD i 0) := by
  induction nt generalizing g0 with
  | zero => simp [hello]
  | succ n ih =>
    have hlen : ∀ sc : ℚ,
        (cross_correlation (sw n) (vw n) g0 sc).length = g0.length := by
      intro sc
      rw [cross_correlation_length, (hl n).1, (hl n).2]
      simp
    have hstep : ∀ sc : ℚ,
        (cross_correlation (sw n) (vw n) g0 sc).getD i 0 =
          g0.getD i 0 - (sw n).getD i 0 * (vw n).getD i 0 * sc := by
      intro sc
      exact cross_correlation_getD (sw n) (vw n) g0 sc i
        ((hl n).1 ▸ hi) ((hl n).2 ▸ hi) hi
    rcases lt_or_le (2/5 : ℚ) (dt * (n : ℚ)) with h1 | h1
    · have hun : hello dt sw vw (n + 1) g0 =
          hello dt sw vw n (cross_correlation (sw n) (vw n) g0 1) := by
        simp only [hello]
        rw [if_pos h1]
      rw [hun, ih _ (fun it => ⟨(hl it).1.trans (hlen 1).symm,
            (hl it).2.trans (hlen 1).symm⟩) ((hlen 1).symm ▸ hi),
          hstep 1, Finset.sum_range_succ, if_pos h1]
      ring
    · rcases lt_or_le (3/10 : ℚ) (dt * (n : ℚ)) with h2 | h2
      · have hun : hello dt sw vw (n + 1) g0 =
            hello dt sw vw n (cross_correlation (sw n) (vw n) g0
              ((dt * (n : ℚ) - 3/10) / (1/10))) := by
          simp only [hello]
          rw [if_neg (not_lt.mpr h1), if_pos h2]
        rw [hun, ih _ (fun it => ⟨(hl it).1.trans (hlen _).symm,
              (hl it).2.trans (hlen _).symm⟩) ((hlen _).symm ▸ hi),
            hstep _, Finset.sum_range_succ, if_neg (not_lt.mpr h1),
            if_pos h2]
        ring
      · have hun : hello dt sw vw (n + 1) g0 = g0 := by
          simp only [hello]
          rw [if_neg (not_lt.mpr h1), if_neg (not_lt.mpr h2)]
        have hzero : ∀ it ∈ Finset.range (n + 1),
            (if dt * (it : ℚ) > 2/5 then (1 : ℚ)
             else if dt * (it : ℚ) > 3/10 then (dt * (it : ℚ) - 3/10) / (1/10)
             else 0) * ((sw it).getD i 0 * (vw it).getD i 0) = 0 := by
          intro it hit
          have hitn : (it : ℚ) ≤ (n : ℚ) := by
            exact_mod_cast Nat.lt_succ_iff.mp (Finset.mem_range.mp hit)
          have hde : dt * (it : ℚ) ≤ dt * (n : ℚ) :=
            mul_le_mul_of_nonneg_left hitn hdt
          rw [if_neg (not_lt.mpr (by linarith)),
              if_neg (not_lt.mpr (by linarith)), zero_mul]
        rw [hun, Finset.sum_eq_zero hzero]
        ring

/-- Witness for c4_hello_time_ramp at dt = 1/10, constant unit wavefields,
nt = 6, g0 = [0, 0], i = 0. -/
theorem c4_hello_time_ramp_witness :
    (0 : ℚ) ≤ 1/10 ∧
    (hello (1/10) (fun _ => [1, 1]) (fun _ => [1, 1]) 6 [0, 0]).getD 0 0 =
      ([(0 : ℚ), 0]).getD 0 0 -
        ∑ it ∈ Finset.range 6,
          (if (1/10 : ℚ) * (it : ℚ) > 2/5 then 1
           else if (1/10 : ℚ) * (it : ℚ) > 3/10 then
             ((1/10 : ℚ) * (it : ℚ) - 3/10) / (1/10)
           else 0) *
            (([(1 : ℚ), 1]).getD 0 0 * ([(1 : ℚ), 1]).getD 0 0) :=
  ⟨by norm_num,
   c4_hello_time_ramp (1/10) (fun _ => [1, 1]) (fun _ => [1, 1]) 6 [0, 0] 0
     (by norm_num) (fun it => ⟨rfl, rfl⟩) (by norm_num)⟩

/-- C10: the adjoint virtual-source filter zeroes the first two and the
last two samples of each trace, and its output does not depend on the dt
parameter at all (the source never reads dt), so the filter applied
through transVsrc is a pure, dt-independent function of the residual
trace. -/
theorem c10_virtual_source_filter (vsrc : List ℚ) (num : ℕ) (dt1 dt2 : ℚ)
    (rows : List (List ℚ)) (nt : ℕ) :
    second_order_virtual_source_forth_accuracy vsrc num dt1 =
      second_order_virtual_source_forth_accuracy vsrc num dt2 ∧
    transVsrc rows nt dt1 = transVsrc rows nt dt2 ∧
    (∀ i, i ≤ 1 ∨ num - 2 ≤ i →
      (second_order_virtual_source_forth_accuracy vsrc num dt1).getD i 0 =
        0) := by
  refine ⟨rfl, rfl, ?_⟩
  intro i hcase
  rcases lt_or_le i num with hin | hout
  · unfold second_order_virtual_source_forth_accuracy
    rw [List.getD_eq_getElem?_getD, List.getElem?_map,
        List.getElem?_range hin]
    by_cases h1 : i ≤ 1
    · simp [h1]
    · have h2 : i = num - 1 ∨ i = num - 2 := by omega
      simp [h1, h2]
  · have hlen : (second_order_virtual_source_forth_accuracy vsrc num
        dt1).length = num := by
      simp [second_order_virtual_source_forth_accuracy]
    refine List.getD_eq_default _ _ ?_
    rw [hlen]
    exact hout

/-- Witness for c10_virtual_source_filter at a concrete trace and row
block, checking the zeroed sample at index 0. -/
theorem c10_virtual_source_filter_witness :
    ((0 : ℕ) ≤ 1 ∨ 6 - 2 ≤ 0) ∧
    (second_order_virtual_source_forth_accuracy [1, 2, 3, 4, 5, 6] 6
      (1/100)).getD 0 0 = 0 :=
  ⟨Or.inl (by decide),
   (c10_virtual_source_filter [1, 2, 3, 4, 5, 6] 6 (1/100) (2/100)
     [[1], [2], [3]] 3).2.2 0 (Or.inl (by decide))⟩

lemma lattice_bounds (beg j n i bound : ℤ) (hbeg : 0 ≤ beg) (hj : 0 ≤ j)
    (hend : beg + (n - 1) * j < bound) (hi0 : 0 ≤ i) (hin : i ≤ n - 1) :
    0 ≤ beg + i * j ∧ beg + i * j < bound := by
  have h1 : i * j ≤ (n - 1) * j := mul_le_mul_of_nonneg_right hin hj
  have h2 : 0 ≤ i * j := mul_nonneg hi0 hj
  exact ⟨by linarith, by linarith⟩

lemma flat_index_bounds (x z nx nz : ℤ) (hx0 : 0 ≤ x) (hx : x < nx)
    (hz0 : 0 ≤ z) (hz : z < nz) :
    0 ≤ x * nz + z ∧ x * nz + z < nx * nz := by
  have hnz : 0 < nz := lt_of_le_of_lt hz0 hz
  have h1 : (x + 1) * nz ≤ nx * nz :=
    mul_le_mul_of_nonneg_right (by linarith) hnz.le
  rw [add_mul, one_mul] at h1
  have h2 : 0 ≤ x * nz := mul_nonneg hx0 hnz.le
  exact ⟨by linarith, by linarith⟩

/-- C9 counterexample: the endpoint conditions of Params.check do not make
every derived source index lie within the grid when a jump increment is
negative: with sxbeg = 5, jsx = -9, ns = 2 on a 10 x 10 grid the check
passes although source 1 sits at lateral position 5 + 1 * (-9) = -4,
outside the grid (flat index (5 + 1 * (-9)) * 10 + 0 = -40 < 0). -/
theorem c9_check_counterexample :
    Params.check 5 0 (-9) 0 2 10 10 0 0 0 0 1 = Except.ok () ∧
    (5 + (1 : ℤ) * (-9) < 0) ∧
    ((5 + (1 : ℤ) * (-9)) * 10 + (0 + (1 : ℤ) * 0) < 0) := by
  refine ⟨?_, by norm_num, by norm_num⟩
  rw [Params.check, if_neg (by norm_num), if_neg (by norm_num)]

/-- C9 amended: Params.check validates exactly the stated endpoint
conditions and exits with status 1 when any fails; provided additionally
that the jump increments jsx, jsz, jgx, jgz are nonnegative, a passing
check implies that every derived source and receiver position, and the
derived flat grid index position_x * nz + position_z, lies within the grid
bounds. -/
theorem c9_geometry_check
    (sxbeg szbeg jsx jsz ns nx nz gxbeg gzbeg jgx jgz ng : ℤ)
    (hjsx : 0 ≤ jsx) (hjsz : 0 ≤ jsz) (hjgx : 0 ≤ jgx) (hjgz : 0 ≤ jgz) :
    ((¬ (sxbeg ≥ 0 ∧ szbeg ≥ 0 ∧ sxbeg + (ns - 1) * jsx < nx ∧
          szbeg + (ns - 1) * jsz < nz) ∨
      ¬ (gxbeg ≥ 0 ∧ gzbeg ≥ 0 ∧ gxbeg + (ng - 1) * jgx < nx ∧
          gzbeg + (ng - 1) * jgz < nz)) →
      Params.check sxbeg szbeg jsx jsz ns nx nz gxbeg gzbeg jgx jgz ng =
        Except.error 1) ∧
    (Params.check sxbeg szbeg jsx jsz ns nx nz gxbeg gzbeg jgx jgz ng =
        Except.ok () →
      (∀ i : ℤ, 0 ≤ i → i ≤ ns - 1 →
        (0 ≤ sxbeg + i * jsx ∧ sxbeg + i * jsx < nx) ∧
        (0 ≤ szbeg + i * jsz ∧ szbeg + i * jsz < nz) ∧
        0 ≤ (sxbeg + i * jsx) * nz + (szbeg + i * jsz) ∧
        (sxbeg + i * jsx) * nz + (szbeg + i * jsz) < nx * nz) ∧
      (∀ i : ℤ, 0 ≤ i → i ≤ ng - 1 →
        (0 ≤ gxbeg + i * jgx ∧ gxbeg + i * jgx < nx) ∧
        (0 ≤ gzbeg + i * jgz ∧ gzbeg + i * jgz < nz) ∧
        0 ≤ (gxbeg + i * jgx) * nz + (gzbeg + i * jgz) ∧
        (gxbeg + i * jgx) * nz + (gzbeg + i * jgz) < nx * nz)) := by
  constructor
  · intro hfail
    by_cases hs : sxbeg ≥ 0 ∧ szbeg ≥ 0 ∧ sxbeg + (ns - 1) * jsx < nx ∧
        szbeg + (ns - 1) * jsz < nz
    · rcases hfail with h | h
      · exact absurd hs h
      · rw [Params.check, if_neg (not_not_intro hs), if_pos h]
    · rw [Params.check, if_pos hs]
  · intro hok
    rw [Params.check] at hok
    split_ifs at hok with h1 h2
    constructor
    · intro i hi0 hin
      have hx := lattice_bounds sxbeg jsx ns i nx h1.1 hjsx h1.2.2.1 hi0 hin
      have hz := lattice_bounds szbeg jsz ns i nz h1.2.1 hjsz h1.2.2.2 hi0
        hin
      exact ⟨hx, hz,
        flat_index_bounds _ _ nx nz hx.1 hx.2 hz.1 hz.2⟩
    · intro i hi0 hin
      have hx := lattice_bounds gxbeg jgx ng i nx h2.1 hjgx h2.2.2.1 hi0 hin
      have hz := lattice_bounds gzbeg jgz ng i nz h2.2.1 hjgz h2.2.2.2 hi0
        hin
      exact ⟨hx, hz,
        flat_index_bounds _ _ nx nz hx.1 hx.2 hz.1 hz.2⟩

/-- Witness for c9_geometry_check: a 10 x 10 grid with 3 sources stepping
by 1 laterally and 5 geophones stepping by 1 laterally; the check passes
and source 1 is in bounds. -/
theorem c9_geometry_check_witness :
    ((0 : ℤ) ≤ 1 ∧ Params.check 0 0 1 0 3 10 10 0 0 1 0 5 = Except.ok ()) ∧
    ((0 ≤ (0 : ℤ) + 1 * 1 ∧ (0 : ℤ) + 1 * 1 < 10) ∧
     (0 ≤ (0 : ℤ) + 1 * 0 ∧ (0 : ℤ) + 1 * 0 < 10) ∧
     0 ≤ ((0 : ℤ) + 1 * 1) * 10 + ((0 : ℤ) + 1 * 0) ∧
     ((0 : ℤ) + 1 * 1) * 10 + ((0 : ℤ) + 1 * 0) < 10 * 10) := by
  have hok : Params.check 0 0 1 0 3 10 10 0 0 1 0 5 = Except.ok () := by
    rw [Params.check, if_neg (by norm_num), if_neg (by norm_num)]
  exact ⟨⟨by norm_num, hok⟩,
    ((c9_geometry_check 0 0 1 0 3 10 10 0 0 1 0 5 (by norm_num)
        (by norm_num) (by norm_num) (by norm_num)).2 hok).1 1 (by norm_num)
      (by norm_num)⟩

/-! Lemmas about the tunedAlpha minimum and the halving loop. -/

lemma tunedBest_foldl_mem :
    ∀ (ps : List (ℚ × ℚ)) (p : ℚ × ℚ),
      ps.foldl (fun best q => if q.2 < best.2 then q else best) p ∈ p :: ps
  | [], p => List.mem_singleton.mpr rfl
  | q :: ps, p => by
      have h := tunedBest_foldl_mem ps (if q.2 < p.2 then q else p)
      simp only [List.foldl_cons]
      rcases List.mem_cons.1 h with h1 | h1
      · rw [h1]
        split_ifs
        · exact List.mem_cons_of_mem _ (List.mem_cons_self _ _)
        · exact List.mem_cons_self _ _
      · exact List.mem_cons_of_mem _ (List.mem_cons_of_mem _ h1)

lemma tunedBest_foldl_min :
    ∀ (ps : List (ℚ × ℚ)) (p : ℚ × ℚ),
      (ps.foldl (fun best q => if q.2 < best.2 then q else best) p).2 ≤ p.2 ∧
      ∀ q ∈ ps,
        (ps.foldl (fun best q => if q.2 < best.2 then q else best) p).2 ≤ q.2
  | [], p => ⟨le_refl _, by simp⟩
  | q :: ps, p => by
      have h := tunedBest_foldl_min ps (if q.2 < p.2 then q else p)
      simp only [List.foldl_cons]
      have hstep : (if q.2 < p.2 then q else p).2 ≤ p.2 ∧
          (if q.2 < p.2 then q else p).2 ≤ q.2 := by
        split_ifs with hq
        · exact ⟨hq.le, le_refl _⟩
        · exact ⟨le_refl _, not_lt.mp hq⟩
      refine ⟨h.1.trans hstep.1, ?_⟩
      intro r hr
      rcases List.mem_cons.1 hr with h1 | h1
      · exact h1 ▸ h.1.trans hstep.2
      · exact h.2 r h1

lemma tunedBest_mem :
    ∀ (l : List (ℚ × ℚ)), l ≠ [] → tunedBest l ∈ l
  | [], hl => absurd rfl hl
  | p :: ps, _ => tunedBest_foldl_mem ps p

lemma tunedBest_min :
    ∀ (l : List (ℚ × ℚ)), ∀ p ∈ l, (tunedBest l).2 ≤ p.2
  | [], p, hp => by simp at hp
  | q :: ps, p, hp => by
      rcases List.mem_cons.1 hp with h1 | h1
      · exact h1 ▸ (tunedBest_foldl_min ps q).1
      · exact (tunedBest_foldl_min ps q).2 p h1

lemma div_two_pow (a : ℚ) (j : ℕ) : a / 2 / 2^j = a / 2^(j + 1) := by
  rw [div_div, ← pow_succ']

lemma shiftedCandidates_zero (f : ℚ → ℚ) (a2 : ℚ) :
    shiftedCandidates f a2 0 = [] := rfl

lemma shiftedCandidates_succ (f : ℚ → ℚ) (a2 : ℚ) (k : ℕ) :
    shiftedCandidates f a2 (k + 1) =
      (a2 / 2, f (a2 / 2)) :: shiftedCandidates f (a2 / 2) k := by
  unfold shiftedCandidates
  rw [List.range_succ_eq_map, List.map_cons, List.map_map]
  refine congrArg₂ _ (by norm_num) ?_
  refine List.map_congr_left ?_
  intro j _
  show (a2 / 2^(j + 1 + 1), f (a2 / 2^(j + 1 + 1))) = _
  rw [div_two_pow]

/-- Running the halving loop from a state whose objective matches the
oracle: after some k at most fuel halvings, the loop stops with
alpha2 / 2^k, every intermediate candidate was re-evaluated and still above
the baseline, and the recorded candidate list is the initial one extended
by the k halved candidates. -/
lemma halveAlpha2_run (f : ℚ → ℚ) (obj_val1 : ℚ) :
    ∀ (fuel : ℕ) (s : TuneState), s.obj_val2 = f s.alpha2 →
      ∃ k, k ≤ fuel ∧
        (∀ j, j < k → obj_val1 < f (s.alpha2 / 2^j)) ∧
        (f (s.alpha2 / 2^k) ≤ obj_val1 ∨ k = fuel) ∧
        halveAlpha2 f obj_val1 fuel s =
          { alpha2 := s.alpha2 / 2^k,
            obj_val2 := f (s.alpha2 / 2^k),
            alpha3 := if k = 0 then s.alpha3 else s.alpha2 / 2^(k - 1),
            obj_val3 := if k = 0 then s.obj_val3 else f (s.alpha2 / 2^(k - 1)),
            tunedAlpha := s.tunedAlpha ++ shiftedCandidates f s.alpha2 k }
  | 0, s, h => by
      refine ⟨0, le_refl _, fun j hj => absurd hj (Nat.not_lt_zero j),
        Or.inr rfl, ?_⟩
      show s = _
      cases s
      simp_all [shiftedCandidates]
  | fuel + 1, s, h => by
      by_cases hcond : s.obj_val2 > obj_val1
      · have hstep : halveAlpha2 f obj_val1 (fuel + 1) s =
            halveAlpha2 f obj_val1 fuel
              ⟨s.alpha2 / 2, f (s.alpha2 / 2), s.alpha2, s.obj_val2,
               s.tunedAlpha ++ [(s.alpha2 / 2, f (s.alpha2 / 2))]⟩ := by
          simp only [halveAlpha2]
          rw [if_pos hcond]
        obtain ⟨k', hk'le, hall, hterm, heq⟩ :=
          halveAlpha2_run f obj_val1 fuel
            ⟨s.alpha2 / 2, f (s.alpha2 / 2), s.alpha2, s.obj_val2,
             s.tunedAlpha ++ [(s.alpha2 / 2, f (s.alpha2 / 2))]⟩ rfl
        dsimp only at hall hterm heq
        refine ⟨k' + 1, by omega, ?_, ?_, ?_⟩
        · intro j hj
          cases j with
          | zero =>
              rw [pow_zero, div_one]
              rw [h] at hcond
              exact hcond
          | succ j' =>
              have hj' := hall j' (Nat.lt_of_succ_lt_succ hj)
              rwa [div_two_pow] at hj'
        · rcases hterm with h1 | h1
          · left
            rwa [div_two_pow] at h1
          · right
            omega
        · rw [hstep, heq]
          simp only [TuneState.mk.injEq]
          refine ⟨div_two_pow _ _, congrArg f (div_two_pow _ _), ?_, ?_, ?_⟩
          · rw [if_neg (Nat.succ_ne_zero k'), Nat.add_sub_cancel]
            cases k' with
            | zero => simp
            | succ m =>
                rw [if_neg (Nat.succ_ne_zero m), Nat.add_sub_cancel,
                  div_two_pow]
          · rw [if_neg (Nat.succ_ne_zero k'), Nat.add_sub_cancel]
            cases k' with
            | zero => simp [h]
            | succ m =>
                rw [if_neg (Nat.succ_ne_zero m), Nat.add_sub_cancel,
                  div_two_pow]
          · rw [shiftedCandidates_succ, List.append_assoc,
              List.singleton_append]
      · refine ⟨0, Nat.zero_le _, fun j hj => absurd hj (Nat.not_lt_zero j),
          Or.inl ?_, ?_⟩
        · rw [pow_zero, div_one, ← h]
          exact not_lt.mp hcond
        · have hstep : halveAlpha2 f obj_val1 (fuel + 1) s = s := by
            simp only [halveAlpha2]
            rw [if_neg hcond]
          rw [hstep]
          cases s
          simp_all [shiftedCandidates]

lemma halvedCandidates_cons (f : ℚ → ℚ) (a2 : ℚ) (k : ℕ) :
    (a2, f a2) :: shiftedCandidates f a2 k = halvedCandidates f a2 k := by
  unfold halvedCandidates shiftedCandidates
  rw [List.range_succ_eq_map, List.map_cons, List.map_map]
  refine congrArg₂ _ (by simp) ?_
  refine (List.map_congr_left ?_).symm
  intro j _
  rfl

lemma halvedCandidates_ne_nil (f : ℚ → ℚ) (a2 : ℚ) (k : ℕ) :
    halvedCandidates f a2 k ≠ [] := by
  simp [halvedCandidates]

/-- C2: when the misfit at the initial alpha2 exceeds the baseline
obj_val1, selectAlpha halves alpha2 at least once and at most
max_iter_select_alpha3 = 5 times, re-evaluating the misfit at every halved
candidate, and stops as soon as the misfit is at most obj_val1 or the
retries are exhausted; if the misfit still exceeds obj_val1 after the
retries, the returned alpha2 is a candidate of smallest misfit among all
candidates tried, alpha3 = min(2 * alpha2, maxAlpha3), and toParabolicFit
is false, so no parabolic fit is performed while usable candidates are
still returned. -/
theorem c2_selectAlpha_halving (f : ℚ → ℚ) (obj_val1 maxAlpha3 a2in a3in : ℚ)
    (fuel : ℕ) (h : obj_val1 < f a2in) :
    ∃ k, 1 ≤ k ∧ k ≤ max_iter_select_alpha3 ∧
      (∀ j, j < k → obj_val1 < f (a2in / 2^j)) ∧
      (f (a2in / 2^k) ≤ obj_val1 ∨ k = max_iter_select_alpha3) ∧
      (obj_val1 < f (a2in / 2^k) →
        (selectAlpha f obj_val1 maxAlpha3 a2in a3in fuel).toParabolicFit =
          false ∧
        (selectAlpha f obj_val1 maxAlpha3 a2in a3in fuel).alpha2 =
          (tunedBest (halvedCandidates f a2in k)).1 ∧
        (selectAlpha f obj_val1 maxAlpha3 a2in a3in fuel).obj_val2 =
          (tunedBest (halvedCandidates f a2in k)).2 ∧
        (selectAlpha f obj_val1 maxAlpha3 a2in a3in fuel).alpha3 =
          min ((selectAlpha f obj_val1 maxAlpha3 a2in a3in fuel).alpha2 * 2)
            maxAlpha3 ∧
        tunedBest (halvedCandidates f a2in k) ∈ halvedCandidates f a2in k ∧
        (∀ p ∈ halvedCandidates f a2in k,
          (tunedBest (halvedCandidates f a2in k)).2 ≤ p.2)) := by
  obtain ⟨k, hk5, hall, hterm, heq⟩ :=
    halveAlpha2_run f obj_val1 max_iter_select_alpha3
      ⟨a2in, f a2in, a3in, f a3in, [(a2in, f a2in)]⟩ rfl
  dsimp only at hall hterm heq
  have hk1 : 1 ≤ k := by
    rcases Nat.eq_zero_or_pos k with h0 | h0
    · subst h0
      rcases hterm with h1 | h1
      · rw [pow_zero, div_one] at h1
        exact absurd h1 (not_le.mpr h)
      · simp [max_iter_select_alpha3] at h1
    · exact h0
  refine ⟨k, hk1, hk5, hall, hterm, ?_⟩
  intro hstill
  have hsel : selectAlpha f obj_val1 maxAlpha3 a2in a3in fuel =
      { alpha2 := (tunedBest (halvedCandidates f a2in k)).1,
        obj_val2 := (tunedBest (halvedCandidates f a2in k)).2,
        alpha3 := min ((tunedBest (halvedCandidates f a2in k)).1 * 2)
          maxAlpha3,
        obj_val3 := f (if k = 0 then a3in else a2in / 2^(k - 1)),
        toParabolicFit := false } := by
    simp only [selectAlpha]
    rw [heq]
    dsimp only
    rw [if_pos hstill, List.singleton_append, halvedCandidates_cons]
  rw [hsel]
  exact ⟨rfl, rfl, rfl, rfl,
    tunedBest_mem _ (halvedCandidates_ne_nil f a2in k),
    tunedBest_min _⟩

/-- Witness for c2_selectAlpha_halving with the misfit oracle
f a = a + 10, baseline 1, initial alpha2 = 4, alpha3 = 8: every halved
candidate still exceeds the baseline, so the fallback branch is taken. -/
theorem c2_selectAlpha_halving_witness :
    (1 : ℚ) < (fun a : ℚ => a + 10) 4 ∧
    ∃ k, 1 ≤ k ∧ k ≤ max_iter_select_alpha3 ∧
      (∀ j, j < k → (1 : ℚ) < (fun a : ℚ => a + 10) (4 / 2^j)) ∧
      ((fun a : ℚ => a + 10) (4 / 2^k) ≤ 1 ∨ k = max_iter_select_alpha3) ∧
      ((1 : ℚ) < (fun a : ℚ => a + 10) (4 / 2^k) →
        (selectAlpha (fun a : ℚ => a + 10) 1 10 4 8 20).toParabolicFit =
          false ∧
        (selectAlpha (fun a : ℚ => a + 10) 1 10 4 8 20).alpha2 =
          (tunedBest (halvedCandidates (fun a : ℚ => a + 10) 4 k)).1 ∧
        (selectAlpha (fun a : ℚ => a + 10) 1 10 4 8 20).obj_val2 =
          (tunedBest (halvedCandidates (fun a : ℚ => a + 10) 4 k)).2 ∧
        (selectAlpha (fun a : ℚ => a + 10) 1 10 4 8 20).alpha3 =
          min ((selectAlpha (fun a : ℚ => a + 10) 1 10 4 8 20).alpha2 * 2)
            10 ∧
        tunedBest (halvedCandidates (fun a : ℚ => a + 10) 4 k) ∈
          halvedCandidates (fun a : ℚ => a + 10) 4 k ∧
        (∀ p ∈ halvedCandidates (fun a : ℚ => a + 10) 4 k,
          (tunedBest (halvedCandidates (fun a : ℚ => a + 10) 4 k)).2 ≤
            p.2)) :=
  ⟨by norm_num,
   c2_selectAlpha_halving (fun a : ℚ => a + 10) 1 10 4 8 20 (by norm_num)⟩

/-- C3: when bracketing succeeds, the fitted coefficients interpolate the
three points (0, obj_val1), (alpha2, obj_val2), (alpha3, obj_val3), the
xv returned by calcParabolaVertex is the vertex abscissa of that parabola
(the quadratic equals A * (x - xv)^2 + yv), and calStepLen returns it
clamped down to max_alpha3; when the two secant slopes are nearly equal
(ill-conditioned fit), the fit is discarded, the returned step length is
min(2 * alpha3, max_alpha3) and the misfit value is the not-a-number
sentinel (modelled as none). -/
theorem c3_parabolic_fit
    (obj_val1 alpha2 obj_val2 alpha3 obj_val3 max_alpha3 : ℚ)
    (h2 : alpha2 ≠ 0) (h3 : alpha3 ≠ 0) (h23 : alpha2 ≠ alpha3) :
    (parabolaA 0 obj_val1 alpha2 obj_val2 alpha3 obj_val3 * 0^2 +
       parabolaB 0 obj_val1 alpha2 obj_val2 alpha3 obj_val3 * 0 +
       parabolaC 0 obj_val1 alpha2 obj_val2 alpha3 obj_val3 = obj_val1 ∧
     parabolaA 0 obj_val1 alpha2 obj_val2 alpha3 obj_val3 * alpha2^2 +
       parabolaB 0 obj_val1 alpha2 obj_val2 alpha3 obj_val3 * alpha2 +
       parabolaC 0 obj_val1 alpha2 obj_val2 alpha3 obj_val3 = obj_val2 ∧
     parabolaA 0 obj_val1 alpha2 obj_val2 alpha3 obj_val3 * alpha3^2 +
       parabolaB 0 obj_val1 alpha2 obj_val2 alpha3 obj_val3 * alpha3 +
       parabolaC 0 obj_val1 alpha2 obj_val2 alpha3 obj_val3 = obj_val3) ∧
    (parabolaA 0 obj_val1 alpha2 obj_val2 alpha3 obj_val3 ≠ 0 →
      ∀ x : ℚ,
        parabolaA 0 obj_val1 alpha2 obj_val2 alpha3 obj_val3 * x^2 +
          parabolaB 0 obj_val1 alpha2 obj_val2 alpha3 obj_val3 * x +
          parabolaC 0 obj_val1 alpha2 obj_val2 alpha3 obj_val3 =
        parabolaA 0 obj_val1 alpha2 obj_val2 alpha3 obj_val3 *
          (x - (calcParabolaVertex 0 obj_val1 alpha2 obj_val2 alpha3
            obj_val3).1)^2 +
          (calcParabolaVertex 0 obj_val1 alpha2 obj_val2 alpha3
            obj_val3).2) ∧
    (¬ illConditioned 0 obj_val1 alpha2 obj_val2 alpha3 obj_val3 →
      calStepLenFinal obj_val1 alpha2 obj_val2 alpha3 obj_val3 max_alpha3
          true =
        (min (calcParabolaVertex 0 obj_val1 alpha2 obj_val2 alpha3
          obj_val3).1 max_alpha3,
         some (calcParabolaVertex 0 obj_val1 alpha2 obj_val2 alpha3
          obj_val3).2)) ∧
    (illConditioned 0 obj_val1 alpha2 obj_val2 alpha3 obj_val3 →
      calStepLenFinal obj_val1 alpha2 obj_val2 alpha3 obj_val3 max_alpha3
          true =
        (min (2 * alpha3) max_alpha3, none)) := by
  have h02 : (0 : ℚ) - alpha2 ≠ 0 := sub_ne_zero.mpr (Ne.symm h2)
  have h03 : (0 : ℚ) - alpha3 ≠ 0 := sub_ne_zero.mpr (Ne.symm h3)
  have h23s : alpha2 - alpha3 ≠ 0 := sub_ne_zero.mpr h23
  refine ⟨⟨?_, ?_, ?_⟩, ?_, ?_, ?_⟩
  · unfold parabolaA parabolaB parabolaC parabolaDenom
    field_simp
    try ring
  · unfold parabolaA parabolaB parabolaC parabolaDenom
    field_simp
    try ring
  · unfold parabolaA parabolaB parabolaC parabolaDenom
    field_simp
    try ring
  · intro hA x
    have hv : calcParabolaVertex 0 obj_val1 alpha2 obj_val2 alpha3 obj_val3 =
        (-(parabolaB 0 obj_val1 alpha2 obj_val2 alpha3 obj_val3) /
           (2 * parabolaA 0 obj_val1 alpha2 obj_val2 alpha3 obj_val3),
         parabolaC 0 obj_val1 alpha2 obj_val2 alpha3 obj_val3 -
           parabolaB 0 obj_val1 alpha2 obj_val2 alpha3 obj_val3 *
             parabolaB 0 obj_val1 alpha2 obj_val2 alpha3 obj_val3 /
           (4 * parabolaA 0 obj_val1 alpha2 obj_val2 alpha3 obj_val3)) :=
      rfl
    rw [hv]
    field_simp
    ring
  · intro hnot
    have hv : calStepLenFinal obj_val1 alpha2 obj_val2 alpha3 obj_val3
        max_alpha3 true =
        (if (calcParabolaVertex 0 obj_val1 alpha2 obj_val2 alpha3
              obj_val3).1 > max_alpha3 then max_alpha3
         else (calcParabolaVertex 0 obj_val1 alpha2 obj_val2 alpha3
              obj_val3).1,
         some (calcParabolaVertex 0 obj_val1 alpha2 obj_val2 alpha3
              obj_val3).2) := by
      unfold calStepLenFinal calcParabolaVertexEnhanced
      rw [if_pos rfl, if_neg hnot]
    rw [hv]
    rcases le_or_lt
        (calcParabolaVertex 0 obj_val1 alpha2 obj_val2 alpha3 obj_val3).1
        max_alpha3 with hle | hlt
    · rw [if_neg (not_lt.mpr hle), min_eq_left hle]
    · rw [if_pos hlt, min_eq_right hlt.le]
  · intro hill
    have hv : calStepLenFinal obj_val1 alpha2 obj_val2 alpha3 obj_val3
        max_alpha3 true =
        (if min (2 * alpha3) max_alpha3 > max_alpha3 then max_alpha3
         else min (2 * alpha3) max_alpha3, none) := by
      unfold calStepLenFinal calcParabolaVertexEnhanced
      rw [if_pos rfl, if_pos hill]
    rw [hv, if_neg (not_lt.mpr (min_le_right _ _))]

/-- Witness for c3_parabolic_fit at the points (0, 2), (1, 1), (2, 2)
with bound 100: the secant slopes are -1 and 1, so the fit is
well-conditioned and the clamped vertex is returned. -/
theorem c3_parabolic_fit_witness :
    ((1 : ℚ) ≠ 0 ∧ ¬ illConditioned 0 2 1 1 2 2) ∧
    calStepLenFinal 2 1 1 2 2 100 true =
      (min (calcParabolaVertex 0 2 1 1 2 2).1 100,
       some (calcParabolaVertex 0 2 1 1 2 2).2) :=
  ⟨⟨by norm_num, by norm_num [illConditioned]⟩,
   (c3_parabolic_fit 2 1 1 2 2 100 (by norm_num) (by norm_num)
     (by norm_num)).2.2.1 (by norm_num [illConditioned])⟩

/-- C5: the warm-start state: the first call of initAlpha2_3 for ivel sets
the initialized flag and stores max_alpha3; every call returns alpha3
equal to the stored value except that a stored value below 1.0E-7 is
replaced by the reset constant 1.0E-4, and returns alpha2 = alpha3 / 2;
after calStepLen completes, the stored value for ivel is exactly the
returned step length alpha4. -/
theorem c5_warm_start (st : PreservedAlpha) (f : ℚ → ℚ) (ivel : ℕ)
    (max_alpha3 obj_val1 : ℚ) (fuel : ℕ) :
    (st.isInit ivel = false →
      (initAlpha2_3 st ivel max_alpha3).1.isInit ivel = true ∧
      (initAlpha2_3 st ivel max_alpha3).1.alpha ivel = max_alpha3) ∧
    ((initAlpha2_3 st ivel max_alpha3).2.2 =
      (if (initAlpha2_3 st ivel max_alpha3).1.alpha ivel < 1/10^7 then
        1/10^4
       else (initAlpha2_3 st ivel max_alpha3).1.alpha ivel)) ∧
    ((initAlpha2_3 st ivel max_alpha3).2.1 =
      (initAlpha2_3 st ivel max_alpha3).2.2 / 2) ∧
    ((calStepLen st f ivel max_alpha3 obj_val1 fuel).1.alpha ivel =
      (calStepLen st f ivel max_alpha3 obj_val1 fuel).2) := by
  refine ⟨?_, rfl, ?_, ?_⟩
  · intro h
    simp [initAlpha2_3, h]
  · have hdef : (initAlpha2_3 st ivel max_alpha3).2.1 =
        (initAlpha2_3 st ivel max_alpha3).2.2 * (1/2) := rfl
    rw [hdef]
    ring
  · simp [calStepLen]

/-- Witness for c5_warm_start on the fresh store (all flags false,
all values zero) with the oracle f a = a and max_alpha3 = 3. -/
theorem c5_warm_start_witness :
    (PreservedAlpha.mk (fun _ => false) (fun _ => 0)).isInit 0 = false ∧
    (initAlpha2_3 (PreservedAlpha.mk (fun _ => false) (fun _ => 0)) 0
        3).1.isInit 0 = true ∧
    (initAlpha2_3 (PreservedAlpha.mk (fun _ => false) (fun _ => 0)) 0
        3).1.alpha 0 = 3 :=
  ⟨rfl,
   (c5_warm_start (PreservedAlpha.mk (fun _ => false) (fun _ => 0))
     (fun a => a) 0 3 100 7).1 rfl⟩

end Swfwi
